import Mathlib

/-!
Verification of the ClaudeForge workflow-orchestration backend.

This file shallowly embeds the parts of the repository relevant to the
checked claims:

- `backend/models.py`: the `PhaseStatus`, `WorkflowPhase`, `ProjectStatus`
  enums and the `Approval` / `SpecPhase` / `Feature` / `Project` records.
- `backend/utils.py`: `validate_feature_id`, `generate_feat_id`,
  `write_phase_spec`, `read_phase_spec`, `update_phase_status`.
- `backend/db.py`: the `features` and `projects` tables with
  `update_feature_status`, `register_project`, and the per-day feature
  counter `get_next_feature_number`.
- `backend/agents.py`: `execute_phase` and `run_workflow`.

Modelling conventions:
- Wall-clock time (`datetime.utcnow()`) is an abstract monotone counter:
  each call to `utcnow` is one tick of a `Nat` clock carried in the state.
  `isoformat` serializes a tick to its decimal string; `fromisoformat`
  parses it back.  The concrete ISO-8601 text is irrelevant to every claim.
- The YAML files written under `.spec-workflow/specs/<feat>/phase-<p>.yaml`
  are modelled as a map from the key `(project, feature id, phase)` to the
  dictionary that `yaml.dump` receives; `yaml.safe_load` returns that same
  dictionary (PyYAML round-trips the dumped `str`/`list`/`dict` values).
- A Python exception raised while parsing a malformed stored document is
  conflated with "absent"; every document written by this code parses back,
  so the conflation is never exercised by the theorems below.
-/

namespace ClaudeForge

/-! ### models.py: enums -/

/-- `models.PhaseStatus` (`str` enum). -/
inductive PhaseStatus where
  | draft
  | pending_approval
  | approved
  | rejected
  | in_progress
  | completed
deriving DecidableEq, Repr

/-- The `.value` of a `PhaseStatus` member. -/
def PhaseStatus.value : PhaseStatus → String
  | .draft => "draft"
  | .pending_approval => "pending_approval"
  | .approved => "approved"
  | .rejected => "rejected"
  | .in_progress => "in_progress"
  | .completed => "completed"

/-- The `PhaseStatus(...)` constructor-from-value lookup; `none` models the
`ValueError` raised on an unknown value. -/
def PhaseStatus.ofValue : String → Option PhaseStatus
  | "draft" => some .draft
  | "pending_approval" => some .pending_approval
  | "approved" => some .approved
  | "rejected" => some .rejected
  | "in_progress" => some .in_progress
  | "completed" => some .completed
  | _ => none

/-- `models.WorkflowPhase` (`str` enum). -/
inductive WorkflowPhase where
  | requirements
  | design
  | tasks
  | implementation
  | verification
  | review
deriving DecidableEq, Repr

/-- The `.value` of a `WorkflowPhase` member. -/
def WorkflowPhase.value : WorkflowPhase → String
  | .requirements => "requirements"
  | .design => "design"
  | .tasks => "tasks"
  | .implementation => "implementation"
  | .verification => "verification"
  | .review => "review"

/-- The `WorkflowPhase(...)` constructor-from-value lookup. -/
def WorkflowPhase.ofValue : String → Option WorkflowPhase
  | "requirements" => some .requirements
  | "design" => some .design
  | "tasks" => some .tasks
  | "implementation" => some .implementation
  | "verification" => some .verification
  | "review" => some .review
  | _ => none

/-- Iteration order of `list(WorkflowPhase)` (declaration order of the
enum members). -/
def phasesInOrder : List WorkflowPhase :=
  [.requirements, .design, .tasks, .implementation, .verification, .review]

/-- `models.ProjectStatus` (`str` enum). -/
inductive ProjectStatus where
  | active
  | archived
  | error
deriving DecidableEq, Repr

/-- The `.value` of a `ProjectStatus` member. -/
def ProjectStatus.value : ProjectStatus → String
  | .active => "active"
  | .archived => "archived"
  | .error => "error"

/-- The `ProjectStatus(...)` constructor-from-value lookup. -/
def ProjectStatus.ofValue : String → Option ProjectStatus
  | "active" => some .active
  | "archived" => some .archived
  | "error" => some .error
  | _ => none

/-! ### models.py: records -/

/-- Abstract wall-clock instant (one tick of `datetime.utcnow()`). -/
abbrev Time := Nat

/-- `datetime.isoformat()`: an injective textual encoding of an instant,
modelled as the decimal string of the tick. -/
def isoformat (t : Time) : String := toString t

/-- `datetime.fromisoformat(...)`: parses the encoding produced by
`isoformat`.  (The Python function raises on malformed input; stored
timestamps are always well-formed here, so the default is never hit.) -/
def fromisoformat (s : String) : Time := s.toNat?.getD 0

/-- `models.Approval`. -/
structure Approval where
  user : String
  timestamp : Time
  comment : String
deriving DecidableEq, Repr

/-- `models.SpecPhase`. -/
structure SpecPhase where
  feature_id : String
  phase : WorkflowPhase
  status : PhaseStatus
  content : String
  approvals : List Approval
  dependencies : List String
  created_at : Time
  updated_at : Time
deriving DecidableEq, Repr

/-- `models.Project` (as returned by the db layer; `id` is the SQLite
rowid). -/
structure Project where
  id : Option Nat
  name : String
  path : String
  status : ProjectStatus
deriving DecidableEq, Repr

/-! ### The spec store (YAML files under the projects directory) -/

/-- An approval entry as serialized into the YAML dictionary
(`timestamp` is the `isoformat` string). -/
structure ApprovalDict where
  user : String
  timestamp : String
  comment : String
deriving DecidableEq, Repr

/-- The dictionary handed to `yaml.dump` by `write_phase_spec` /
`update_phase_status`, and handed back by `yaml.safe_load`. -/
structure SpecDict where
  feature_id : String
  phase : String
  status : String
  content : String
  approvals : List ApprovalDict
  dependencies : List String
  created_at : String
  updated_at : String
deriving DecidableEq, Repr

/-- A phase-spec file is addressed by
`PROJECTS_PATH/<project>/.spec-workflow/specs/<featId>/phase-<phase>.yaml`;
the key captures the three varying path components. -/
abbrev SpecKey := String × String × WorkflowPhase

/-- The filesystem holding the spec documents. -/
def FS := SpecKey → Option SpecDict

/-- Read the document stored at `k` (absent file gives `none`). -/
def fsRead (fs : FS) (k : SpecKey) : Option SpecDict := fs k

/-- `open(path, "w")` followed by `yaml.dump`: creates or overwrites the
single file at `k`. -/
def fsWrite (fs : FS) (k : SpecKey) (d : SpecDict) : FS :=
  fun k' => if k' = k then some d else fs k'

/-- The serialization of a `SpecPhase` into the YAML dictionary; mirrors
the `spec_dict = {...}` literal that appears (identically) in both
`write_phase_spec` and `update_phase_status`. -/
def specToDict (spec : SpecPhase) : SpecDict where
  feature_id := spec.feature_id
  phase := spec.phase.value
  status := spec.status.value
  content := spec.content
  approvals := spec.approvals.map fun a =>
    { user := a.user, timestamp := isoformat a.timestamp, comment := a.comment }
  dependencies := spec.dependencies
  created_at := isoformat spec.created_at
  updated_at := isoformat spec.updated_at

/-- The reconstruction performed by `read_phase_spec` after
`yaml.safe_load`; `none` models the `ValueError` raised by
`WorkflowPhase(...)` / `PhaseStatus(...)` on an unrecognized value. -/
def parseSpecDict (d : SpecDict) : Option SpecPhase := do
  let ph ← WorkflowPhase.ofValue d.phase
  let st ← PhaseStatus.ofValue d.status
  pure
    { feature_id := d.feature_id
      phase := ph
      status := st
      content := d.content
      approvals := d.approvals.map fun a =>
        { user := a.user, timestamp := fromisoformat a.timestamp, comment := a.comment }
      dependencies := d.dependencies
      created_at := fromisoformat d.created_at
      updated_at := fromisoformat d.updated_at }

/-! ### db.py: tables and the process state

`St` bundles the mutable state touched by the modelled functions: the
spec files, the SQLite `features` and `logs` tables, the per-feature
in-memory log queues of `agents.py`, and the abstract clock. -/

/-- A row of the `features` table (`status` and `current_phase` are stored
as their TEXT `.value`s, exactly as SQLite holds them). -/
structure FeatureRow where
  id : Nat
  feature_id : String
  project_id : Nat
  description : String
  status : String
  current_phase : String
deriving DecidableEq, Repr

/-- A row of the `logs` table (the AUTOINCREMENT rowid is irrelevant to
every claim and omitted). -/
structure LogRow where
  feature_id : String
  timestamp : Time
  message : String
  level : String
deriving DecidableEq, Repr

/-- A row of the `projects` table. -/
structure ProjectRow where
  id : Nat
  name : String
  path : String
  status : String
deriving DecidableEq, Repr

/-- The mutable process + database + filesystem state. -/
structure St where
  fs : FS
  features : List FeatureRow
  logs : List LogRow
  queues : String → List (String × String)
  clock : Nat

/-- One call of `datetime.utcnow()`: returns the current instant and
advances the clock. -/
def tick (st : St) : Time × St :=
  (st.clock, { st with clock := st.clock + 1 })

/-- The effect of the `UPDATE features SET ...  WHERE feature_id = ?`
statement on one row: rows whose `feature_id` matches get the new status
(and, when a phase is passed, the new current phase); all other rows are
untouched. -/
def updRow (feature_id : String) (status : PhaseStatus)
    (phase : Option WorkflowPhase) (r : FeatureRow) : FeatureRow :=
  if r.feature_id = feature_id then
    match phase with
    | some p => { r with status := status.value, current_phase := p.value }
    | none => { r with status := status.value }
  else r

/-- `db.update_feature_status`: `UPDATE features SET status = ?`
(`, current_phase = ?` when `phase` is passed) `WHERE feature_id = ?`;
returns `cursor.rowcount > 0`.  (`if phase:` is `phase is not None`, since
every `WorkflowPhase` value is a non-empty, hence truthy, string.) -/
def update_feature_status (st : St) (feature_id : String)
    (status : PhaseStatus) (phase : Option WorkflowPhase) : St × Bool :=
  ({ st with features := st.features.map (updRow feature_id status phase) },
   st.features.any fun r => r.feature_id = feature_id)

/-- `db.add_log`: inserts one row into `logs` with `timestamp = utcnow()`. -/
def add_log (st : St) (feature_id message level : String) : St × LogRow :=
  let (t, st') := tick st
  let row : LogRow := { feature_id := feature_id, timestamp := t,
                        message := message, level := level }
  ({ st' with logs := st'.logs ++ [row] }, row)

/-! ### utils.py: spec-store operations -/

/-- `utils.write_phase_spec`: builds a fresh `SpecPhase` with a single
synthetic `Approval(user="system", comment="Auto-generated")`, both
timestamps set to the one `utcnow()` call, dependency list
`dependencies or []`, and dumps it, overwriting the phase file. -/
def write_phase_spec (st : St) (project_name feat_id : String)
    (phase : WorkflowPhase) (content : String) (status : PhaseStatus)
    (dependencies : Option (List String)) : St × SpecPhase :=
  let (now, st') := tick st
  let spec : SpecPhase :=
    { feature_id := feat_id
      phase := phase
      status := status
      content := content
      approvals := [{ user := "system", timestamp := now, comment := "Auto-generated" }]
      dependencies := dependencies.getD []
      created_at := now
      updated_at := now }
  ({ st' with fs := fsWrite st'.fs (project_name, feat_id, phase) (specToDict spec) },
   spec)

/-- `utils.read_phase_spec`: `none` if the phase file does not exist,
otherwise the parsed document. -/
def read_phase_spec (fs : FS) (project_name feat_id : String)
    (phase : WorkflowPhase) : Option SpecPhase :=
  match fsRead fs (project_name, feat_id, phase) with
  | none => none
  | some d => parseSpecDict d

/-- `utils.update_phase_status`: reads the spec; returns `none` without
writing when it is absent; otherwise sets the status, refreshes
`updated_at`, appends one approval record (the source calls `utcnow()`
separately for each), and rewrites the file. -/
def update_phase_status (st : St) (project_name feat_id : String)
    (phase : WorkflowPhase) (status : PhaseStatus)
    (comment : String) (user : String) : St × Option SpecPhase :=
  match read_phase_spec st.fs project_name feat_id phase with
  | none => (st, none)
  | some spec0 =>
    let (t1, st1) := tick st
    let (t2, st2) := tick st1
    let spec : SpecPhase :=
      { spec0 with
          status := status
          updated_at := t1
          approvals := spec0.approvals ++ [{ user := user, timestamp := t2, comment := comment }] }
    ({ st2 with fs := fsWrite st2.fs (project_name, feat_id, phase) (specToDict spec) },
     some spec)

/-! ### utils.py: validate_feature_id

`re.match(r"^FEAT-\d{8}-\d{3}$", feat_id)` is embedded as a deterministic
matcher for this alternation-free pattern.  `\d` is modelled as an ASCII
digit (the inputs of every claim are ASCII).  Python's `$` (without
`re.MULTILINE`) matches at the end of the string or just before a single
newline that ends the string. -/

/-- Match a literal character sequence at the head of the input, returning
the remainder on success. -/
def matchLit : List Char → List Char → Option (List Char)
  | [], cs => some cs
  | l :: ls, c :: cs => if c = l then matchLit ls cs else none
  | _ :: _, [] => none

/-- Match exactly `n` digits at the head of the input. -/
def matchDigits : Nat → List Char → Option (List Char)
  | 0, cs => some cs
  | n + 1, c :: cs => if c.isDigit then matchDigits n cs else none
  | _ + 1, [] => none

/-- The body of the pattern: `FEAT-`, eight digits, `-`, three digits. -/
def reMatchFeat (cs : List Char) : Option (List Char) :=
  (matchLit ['F', 'E', 'A', 'T', '-'] cs).bind fun cs1 =>
    (matchDigits 8 cs1).bind fun cs2 =>
      (matchLit ['-'] cs2).bind fun cs3 =>
        matchDigits 3 cs3

/-- Python `$` (no MULTILINE): accepts the position at the very end, or the
position just before one final newline. -/
def dollarAtEnd (rest : List Char) : Bool :=
  rest = [] || rest = ['\n']

/-- `utils.validate_feature_id`. -/
def validate_feature_id (feat_id : String) : Bool :=
  match reMatchFeat feat_id.data with
  | some rest => dollarAtEnd rest
  | none => false

/-- The spec's wording of the accepted language, stated independently of
the matcher: exactly `FEAT-`, eight digits, `-`, three digits — nothing
before or after.  Used to compare `validate_feature_id` against its
specification. -/
def SpecFeatFormat (cs : List Char) : Prop :=
  ∃ d8 d3 : List Char,
    d8.length = 8 ∧ d8.all Char.isDigit = true
    ∧ d3.length = 3 ∧ d3.all Char.isDigit = true
    ∧ cs = 'F' :: 'E' :: 'A' :: 'T' :: '-' :: (d8 ++ '-' :: d3)

/-! ### utils.py: generate_feat_id -/

/-- Decimal digit characters (Python `%d` formatting). -/
def digitChar : Nat → Char
  | 0 => '0' | 1 => '1' | 2 => '2' | 3 => '3' | 4 => '4'
  | 5 => '5' | 6 => '6' | 7 => '7' | 8 => '8' | _ => '9'

/-- Decimal digits of `n`, most significant first; the fuel only bounds the
digit count (`n + 1` always suffices, see `toDecimal_eq`). -/
def toDecimalAux : Nat → Nat → List Char
  | 0, _ => []
  | fuel + 1, n =>
    if n < 10 then [digitChar n]
    else toDecimalAux fuel (n / 10) ++ [digitChar (n % 10)]

/-- The decimal representation of `n` (no leading zeros; `0` is `"0"`). -/
def toDecimal (n : Nat) : List Char := toDecimalAux (n + 1) n

/-- Python `f"{number:03d}"` for a non-negative `number`: the decimal
digits, left-padded with `'0'` to a minimum width of 3 (wider numbers are
kept whole, not truncated). -/
def pad3 (number : Nat) : List Char :=
  let s := toDecimal number
  List.replicate (3 - s.length) '0' ++ s

/-- `utils.generate_feat_id`, with the two ambient inputs made explicit:
`today` is `datetime.utcnow().strftime("%Y%m%d")` and `number` is the value
returned by `db.get_next_feature_number()`. -/
def generate_feat_id (today : String) (number : Nat) : String :=
  "FEAT-" ++ today ++ "-" ++ String.mk (pad3 number)

/-! ### db.py: get_next_feature_number and its two-statement race

`get_next_feature_number` opens its own connection and runs two separate
SQL statements: a `SELECT counter FROM feature_counter WHERE date = ?`
(executed in autocommit mode, before any transaction is open) and then an
`UPDATE`/`INSERT` that is committed.  `counterRowAfter`/`counterReturn`
give the sequential semantics on the counter row for a fixed day;
`callStep`/`runSchedule` split a call at the statement boundary so that
interleavings of two concurrent calls can be examined. -/

/-- Sequential semantics of one call: the new counter row and the returned
number.  State `none` means no row exists yet for today's date. -/
def get_next_feature_number (row : Option Nat) : Option Nat × Nat :=
  match row with
  | some counter => (some (counter + 1), counter + 1)
  | none => (some 1, 1)

/-- An in-flight call to `get_next_feature_number`, split at its two SQL
statements: `seen = none` before its SELECT, `seen = some v` after reading
`v`; `ret` is set by its UPDATE/INSERT + commit. -/
structure CounterCall where
  seen : Option (Option Nat)
  ret : Option Nat
deriving DecidableEq, Repr

/-- The call that has not executed any statement yet. -/
def CounterCall.start : CounterCall := { seen := none, ret := none }

/-- Execute the next statement of one call against the shared counter row.
A finished call leaves the row unchanged. -/
def callStep (row : Option Nat) (c : CounterCall) : Option Nat × CounterCall :=
  match c.seen, c.ret with
  | none, _ => (row, { c with seen := some row })
  | some (some counter), none => (some (counter + 1), { c with ret := some (counter + 1) })
  | some none, none => (some 1, { c with ret := some 1 })
  | some _, some _ => (row, c)

/-- Run two concurrent calls `a` (scheduled on `true`) and `b` (scheduled
on `false`) under the given interleaving. -/
def runSchedule (sched : List Bool) (row : Option Nat) (a b : CounterCall) :
    Option Nat × CounterCall × CounterCall :=
  match sched with
  | [] => (row, a, b)
  | pick :: rest =>
    if pick then
      let (row', a') := callStep row a
      runSchedule rest row' a' b
    else
      let (row', b') := callStep row b
      runSchedule rest row' a b'

/-! ### db.py: register_project -/

/-- SQLite rowid assignment for an insert into `projects`. -/
def nextRowId (tbl : List ProjectRow) : Nat :=
  (tbl.map ProjectRow.id).foldr max 0 + 1

/-- `db.register_project`: `SELECT * FROM projects WHERE name = ?`; if a
row exists, return it as a `Project` (the `path` argument is ignored);
otherwise insert `(name, path, 'active')` and return the new `Project`.
`none` models the `ValueError` raised by `ProjectStatus(row["status"])` on
a corrupt stored status. -/
def register_project (tbl : List ProjectRow) (name path : String) :
    List ProjectRow × Option Project :=
  match tbl.find? (fun r => r.name = name) with
  | some r =>
    (tbl, (ProjectStatus.ofValue r.status).map fun s =>
      { id := some r.id, name := r.name, path := r.path, status := s })
  | none =>
    let newId := nextRowId tbl
    (tbl ++ [{ id := newId, name := name, path := path, status := ProjectStatus.active.value }],
     some { id := some newId, name := name, path := path, status := ProjectStatus.active })

/-! ### agents.py: the workflow engine

The CrewAI agents are the external Phase Executor: `crew.kickoff()` for the
single-task crew of phase `p` is modelled as an oracle
`exec : WorkflowPhase → Except String String` returning either the
generated content or the message of the raised exception.  The prompt text
built for each phase (feature description, truncated previous-phase
output) only flows into the oracle and never into the persisted state, so
it is not reproduced.  Agent construction has no observable effect on the
modelled state. -/

/-- `agents.log_message`: writes the durable log row and pushes the
ephemeral copy onto the feature's in-memory queue. -/
def log_message (st : St) (feat_id message : String) (level : String := "info") : St :=
  let (st', _) := add_log st feat_id message level
  { st' with
      queues := fun k =>
        if k = feat_id then st'.queues feat_id ++ [(message, level)] else st'.queues k }

/-- `agents.execute_phase`: logs, invokes the executor, writes the spec
file with status `completed` (auto-approve) or `pending_approval`, marks
the feature `in_progress` at this phase, and in auto-approve mode
immediately appends the `"Auto-approved"` approval via
`update_phase_status`.  An exception from the executor propagates,
carrying the state mutated so far. -/
def execute_phase (exec : WorkflowPhase → Except String String) (st : St)
    (feat_id project_name : String) (phase : WorkflowPhase)
    (auto_approve : Bool) : Except (St × String) (St × String) :=
  let st := log_message st feat_id ("Executing phase: " ++ phase.value)
  match exec phase with
  | .error e => .error (st, e)
  | .ok content =>
    let st := log_message st feat_id
      ("Phase " ++ phase.value ++ " generated " ++ toString content.length
        ++ " characters of output")
    let status := if auto_approve then PhaseStatus.completed else PhaseStatus.pending_approval
    let (st, _spec) := write_phase_spec st project_name feat_id phase content status none
    let st := log_message st feat_id ("Wrote spec file for phase: " ++ phase.value)
    let (st, _) := update_feature_status st feat_id PhaseStatus.in_progress (some phase)
    let st :=
      if auto_approve then
        (update_phase_status st project_name feat_id phase PhaseStatus.completed
          "Auto-approved" "system").1
      else st
    .ok (st, content)

/-- The dictionary returned by `run_workflow` (the per-phase `results`
fragment of the success dictionary is redundant with the spec store and
omitted). -/
inductive RunResult where
  | success (feat_id : String) (status : PhaseStatus)
  | failure (feat_id : String) (error : String)
deriving DecidableEq, Repr

/-- The `except Exception` handler of `run_workflow`: logs the error at
`error` level and sets the feature status to `rejected` with the phase
argument omitted (`None`). -/
def runError (st : St) (feat_id e : String) : St × RunResult :=
  let msg := "Workflow error: " ++ e
  let st := log_message st feat_id msg "error"
  let st := (update_feature_status st feat_id PhaseStatus.rejected none).1
  (st, .failure feat_id msg)

/-- The per-phase progress banner (`"Phase 1/6: Gathering requirements"`
and so on). -/
def phaseBanner : WorkflowPhase → String
  | .requirements => "Phase 1/6: Gathering requirements"
  | .design => "Phase 2/6: Creating architectural design"
  | .tasks => "Phase 3/6: Breaking down into tasks"
  | .implementation => "Phase 4/6: Implementing feature"
  | .verification => "Phase 5/6: Verifying implementation"
  | .review => "Phase 6/6: Reviewing implementation"

/-- The straight-line body of `run_workflow` phases 1-6, written as a
recursion over the remaining phases (the six blocks in the source differ
only in the prompt text, which lives inside the executor oracle). -/
def runPhases (exec : WorkflowPhase → Except String String) (st : St)
    (feat_id project_name : String) (auto_approve : Bool) :
    List WorkflowPhase → Except (St × String) St
  | [] => .ok st
  | p :: rest =>
    let st := log_message st feat_id (phaseBanner p)
    match execute_phase exec st feat_id project_name p auto_approve with
    | .error err => .error err
    | .ok (st', _content) => runPhases exec st' feat_id project_name auto_approve rest

/-- `agents.run_workflow`: logs the start, marks the feature
`in_progress` at `requirements`, drives the six phases in order, then
marks the feature `completed` (auto-approve) or `pending_approval` at
phase `review`; any exception lands in `runError`. -/
def run_workflow (exec : WorkflowPhase → Except String String) (st : St)
    (feat_id project_name description : String) (_project_id : Nat)
    (auto_approve : Bool) : St × RunResult :=
  let st := log_message st feat_id
    ("Starting workflow for " ++ feat_id ++ ": " ++ description)
  let st := (update_feature_status st feat_id PhaseStatus.in_progress
    (some WorkflowPhase.requirements)).1
  match runPhases exec st feat_id project_name auto_approve phasesInOrder with
  | .error (st', e) => runError st' feat_id e
  | .ok st' =>
    let final_status := if auto_approve then PhaseStatus.completed else PhaseStatus.pending_approval
    let st'' := (update_feature_status st' feat_id final_status (some WorkflowPhase.review)).1
    let st'' := log_message st'' feat_id
      ("Workflow completed successfully with status: " ++ final_status.value)
    (st'', .success feat_id final_status)

/-! ### Concrete instances used by witnesses and counterexamples -/

/-- The state of a fresh deployment: no spec files, empty tables. -/
def emptySt : St :=
  { fs := fun _ => none, features := [], logs := [], queues := fun _ => [], clock := 0 }

/-- The feature row created by `db.create_feature` for the demo feature
(initial status `draft`, initial phase `requirements`). -/
def demoRow : FeatureRow :=
  { id := 1, feature_id := "FEAT-20260129-001", project_id := 1,
    description := "add login", status := "draft", current_phase := "requirements" }

/-- State holding exactly the demo feature record. -/
def demoSt : St := { emptySt with features := [demoRow] }

/-- A phase executor whose every invocation succeeds with a fixed
document. -/
def demoExec : WorkflowPhase → Except String String :=
  fun _ => .ok "spec content"

/-- A phase executor that crashes while generating the design phase. -/
def failingExec : WorkflowPhase → Except String String
  | .design => .error "rate limited"
  | _ => .ok "spec content"

/-!
## Theorems

Helper lemmas come first; the per-claim theorems, witnesses and
counterexamples follow, one doc-commented theorem per claim.
-/

@[simp] theorem phaseStatus_ofValue_value (s : PhaseStatus) :
    PhaseStatus.ofValue s.value = some s := by cases s <;> rfl

@[simp] theorem workflowPhase_ofValue_value (p : WorkflowPhase) :
    WorkflowPhase.ofValue p.value = some p := by cases p <;> rfl

@[simp] theorem projectStatus_ofValue_value (s : ProjectStatus) :
    ProjectStatus.ofValue s.value = some s := by cases s <;> rfl

@[simp] theorem fsRead_fsWrite_same (fs : FS) (k : SpecKey) (d : SpecDict) :
    fsRead (fsWrite fs k d) k = some d := by
  simp [fsRead, fsWrite]

theorem fsRead_fsWrite_other (fs : FS) (k k' : SpecKey) (d : SpecDict)
    (h : k' ≠ k) : fsRead (fsWrite fs k d) k' = fsRead fs k' := by
  simp [fsRead, fsWrite, h]

/-- A serialized spec parses back to the in-memory record with the
timestamps re-read through `fromisoformat`. -/
theorem parseSpecDict_specToDict (spec : SpecPhase) :
    parseSpecDict (specToDict spec) = some
      { spec with
          approvals := spec.approvals.map fun a =>
            { a with timestamp := fromisoformat (isoformat a.timestamp) }
          created_at := fromisoformat (isoformat spec.created_at)
          updated_at := fromisoformat (isoformat spec.updated_at) } := by
  simp [parseSpecDict, specToDict, Function.comp]

/-- Running one call's two statements back to back (no interleaving)
agrees with the sequential semantics of `get_next_feature_number`. -/
theorem runSchedule_serial_agrees (row : Option Nat) :
    (runSchedule [true, true] row CounterCall.start CounterCall.start).1
      = (get_next_feature_number row).1
    ∧ (runSchedule [true, true] row CounterCall.start CounterCall.start).2.1.ret
      = some (get_next_feature_number row).2 := by
  cases row <;> simp [runSchedule, callStep, get_next_feature_number, CounterCall.start]

/-- C3: the per-day counter is read-then-write, not a transactional
increment: on a day whose counter row holds 1, two concurrent calls that
both execute their SELECT before either commits its UPDATE both return 2 —
the same feature number — whereas the serial schedule returns the distinct
numbers 2 and 3.  This contradicts the specified atomicity requirement. -/
theorem get_next_feature_number_race :
    (((runSchedule [true, false, true, false] (some 1)
        CounterCall.start CounterCall.start).2.1.ret = some 2)
      ∧ ((runSchedule [true, false, true, false] (some 1)
        CounterCall.start CounterCall.start).2.2.ret = some 2))
    ∧ (((runSchedule [true, true, false, false] (some 1)
        CounterCall.start CounterCall.start).2.1.ret = some 2)
      ∧ ((runSchedule [true, true, false, false] (some 1)
        CounterCall.start CounterCall.start).2.2.ret = some 3)) := by
  decide

/-- C6: writing a phase spec and reading it back yields a document whose
content, status and dependency list are exactly the written ones. -/
theorem write_read_phase_spec_roundtrip (st : St) (project_name feat_id : String)
    (phase : WorkflowPhase) (content : String) (status : PhaseStatus)
    (ds : List String) :
    ∃ spec,
      read_phase_spec
        (write_phase_spec st project_name feat_id phase content status (some ds)).1.fs
        project_name feat_id phase = some spec
      ∧ spec.content = content ∧ spec.status = status ∧ spec.dependencies = ds := by
  refine ⟨{ feature_id := feat_id, phase := phase, status := status, content := content,
            approvals := [{ user := "system",
                            timestamp := fromisoformat (isoformat st.clock),
                            comment := "Auto-generated" }],
            dependencies := ds,
            created_at := fromisoformat (isoformat st.clock),
            updated_at := fromisoformat (isoformat st.clock) }, ?_, rfl, rfl, rfl⟩
  simp [write_phase_spec, read_phase_spec, tick, fsRead_fsWrite_same,
    parseSpecDict_specToDict, Option.getD]

/-- C7: `update_phase_status` on a phase with no stored document returns
`None` and leaves the entire state — in particular the set of stored spec
documents — unchanged. -/
theorem update_phase_status_absent (st : St) (project_name feat_id : String)
    (phase : WorkflowPhase) (status : PhaseStatus) (comment user : String)
    (h : fsRead st.fs (project_name, feat_id, phase) = none) :
    update_phase_status st project_name feat_id phase status comment user
      = (st, none) := by
  simp [update_phase_status, read_phase_spec, h]

/-- Witness for C7 at a concrete input: the fresh state stores no document
for the requirements phase, and the call returns it unchanged with
`none`. -/
theorem update_phase_status_absent_witness :
    fsRead emptySt.fs ("demo", "FEAT-20260129-001", WorkflowPhase.requirements) = none
    ∧ update_phase_status emptySt "demo" "FEAT-20260129-001"
        WorkflowPhase.requirements PhaseStatus.approved "looks good" "alice"
      = (emptySt, none) :=
  ⟨rfl, update_phase_status_absent emptySt "demo" "FEAT-20260129-001"
    WorkflowPhase.requirements PhaseStatus.approved "looks good" "alice" rfl⟩

/-- C9: `update_feature_status` with the phase argument omitted returns
`true` exactly when some row carries the feature id, keeps the table
length, and rewrites each row so that every field except `status` is
unchanged; `status` becomes the new value precisely on the matching
rows. -/
theorem update_feature_status_no_phase (st : St) (fid : String)
    (status : PhaseStatus) :
    ((update_feature_status st fid status none).2 = true
        ↔ ∃ r ∈ st.features, r.feature_id = fid)
    ∧ (update_feature_status st fid status none).1.features.length
        = st.features.length
    ∧ ∀ (i : Nat) (r r' : FeatureRow), st.features[i]? = some r →
        (update_feature_status st fid status none).1.features[i]? = some r' →
        r'.id = r.id ∧ r'.feature_id = r.feature_id
        ∧ r'.project_id = r.project_id ∧ r'.description = r.description
        ∧ r'.current_phase = r.current_phase
        ∧ r'.status = (if r.feature_id = fid then status.value else r.status) := by
  refine ⟨?_, ?_, ?_⟩
  · simp [update_feature_status, List.any_eq_true]
  · simp [update_feature_status]
  · intro i r r' hr hr'
    simp only [update_feature_status, List.getElem?_map, hr, Option.map_some',
      Option.some.injEq] at hr'
    subst hr'
    by_cases hid : r.feature_id = fid <;> simp [updRow, hid]

/-- Witness for C9 at a concrete input: updating the demo feature's status
to `completed` touches only the `status` column of its row. -/
theorem update_feature_status_no_phase_witness :
    (demoSt.features[0]? = some demoRow)
    ∧ ((update_feature_status demoSt "FEAT-20260129-001"
          PhaseStatus.completed none).1.features[0]?
        = some { demoRow with status := "completed" })
    ∧ ({ demoRow with status := "completed" } : FeatureRow).current_phase
        = demoRow.current_phase
    ∧ (update_feature_status demoSt "FEAT-20260129-001"
        PhaseStatus.completed none).2 = true := by
  refine ⟨rfl, by decide, ?_, by decide⟩
  exact (update_feature_status_no_phase demoSt "FEAT-20260129-001"
    PhaseStatus.completed).2.2 0 demoRow _ rfl (by decide) |>.2.2.2.2.1

/-- C10: `register_project` is idempotent: registering `name` twice (with
any two paths) stores exactly one row for `name`; the second call changes
nothing and returns the originally stored project, path `p1` and status
`active`, ignoring `p2`. -/
theorem register_project_idempotent (tbl : List ProjectRow) (name p1 p2 : String)
    (h : tbl.find? (fun r => r.name = name) = none) :
    (register_project (register_project tbl name p1).1 name p2).1
        = (register_project tbl name p1).1
    ∧ ((register_project tbl name p1).1.filter
        (fun r => r.name = name)).length = 1
    ∧ (register_project (register_project tbl name p1).1 name p2).2
        = (register_project tbl name p1).2
    ∧ (register_project tbl name p1).2
        = some { id := some (nextRowId tbl), name := name, path := p1,
                 status := ProjectStatus.active } := by
  have hnot : ∀ r ∈ tbl, ¬ (r.name = name) := by
    intro r hr
    have := List.find?_eq_none.mp h r hr
    simpa using this
  have hfilter : tbl.filter (fun r => r.name = name) = [] := by
    rw [List.filter_eq_nil_iff]
    intro r hr
    simpa using hnot r hr
  have hfind2 :
      ((tbl ++ [({ id := nextRowId tbl, name := name, path := p1,
                   status := ProjectStatus.active.value } : ProjectRow)]).find?
        (fun r => r.name = name))
      = some { id := nextRowId tbl, name := name, path := p1,
               status := ProjectStatus.active.value } := by
    rw [List.find?_append, h]
    simp [List.find?]
  constructor
  · simp [register_project, h, hfind2]
  constructor
  · simp [register_project, h, List.filter_append, hfilter]
  constructor
  · simp [register_project, h, hfind2, ProjectStatus.ofValue, ProjectStatus.value]
  · simp [register_project, h]

/-- Witness for C10 at a concrete input: registering `demo` twice on an
empty table returns the same project both times. -/
theorem register_project_idempotent_witness :
    (([] : List ProjectRow).find? (fun r => r.name = "demo") = none)
    ∧ (register_project (register_project [] "demo" "/projects/demo").1
        "demo" "/elsewhere").2
      = (register_project [] "demo" "/projects/demo").2
    ∧ (register_project [] "demo" "/projects/demo").2
      = some { id := some 1, name := "demo", path := "/projects/demo",
               status := ProjectStatus.active } := by
  refine ⟨rfl, ?_, ?_⟩
  · exact (register_project_idempotent [] "demo" "/projects/demo" "/elsewhere"
      rfl).2.2.1
  · exact (register_project_idempotent [] "demo" "/projects/demo" "/elsewhere"
      rfl).2.2.2

theorem matchLit_eq_some (ls : List Char) :
    ∀ cs rest, matchLit ls cs = some rest ↔ cs = ls ++ rest := by
  induction ls with
  | nil => intro cs rest; simp [matchLit]
  | cons l ls ih =>
    intro cs rest
    cases cs with
    | nil => simp [matchLit]
    | cons c cs =>
      by_cases hc : c = l
      · simp [matchLit, hc, ih]
      · simp [matchLit, hc]

theorem matchDigits_eq_some (n : Nat) :
    ∀ cs rest, matchDigits n cs = some rest ↔
      ∃ ds, cs = ds ++ rest ∧ ds.length = n ∧ ds.all Char.isDigit = true := by
  induction n with
  | zero =>
    intro cs rest
    simp only [matchDigits, Option.some.injEq, List.length_eq_zero]
    constructor
    · rintro rfl; exact ⟨[], rfl, rfl, by simp⟩
    · rintro ⟨ds, heq, rfl, -⟩; simpa using heq
  | succ n ih =>
    intro cs rest
    cases cs with
    | nil =>
      simp only [matchDigits]
      constructor
      · intro h; cases h
      · rintro ⟨ds, heq, hlen, -⟩
        have hds : ds = [] := by
          cases List.append_eq_nil.mp heq.symm with
          | intro h1 h2 => exact h1
        rw [hds] at hlen
        simp at hlen
    | cons c cs =>
      by_cases hd : c.isDigit
      · rw [show matchDigits (n + 1) (c :: cs) = matchDigits n cs by
          simp [matchDigits, hd], ih]
        constructor
        · rintro ⟨ds, rfl, rfl, hall⟩
          exact ⟨c :: ds, rfl, by simp, by simp [hd, hall]⟩
        · rintro ⟨ds, heq, hlen, hall⟩
          cases ds with
          | nil => simp at hlen
          | cons d ds' =>
            obtain ⟨rfl, rfl⟩ : c = d ∧ cs = ds' ++ rest := by
              simpa using heq
            refine ⟨ds', rfl, by simpa using hlen, ?_⟩
            simp only [List.all_cons, Bool.and_eq_true] at hall
            exact hall.2
      · rw [show matchDigits (n + 1) (c :: cs) = none by simp [matchDigits, hd]]
        constructor
        · intro h; cases h
        · rintro ⟨ds, heq, hlen, hall⟩
          cases ds with
          | nil => simp at hlen
          | cons d ds' =>
            obtain ⟨rfl, -⟩ : c = d ∧ cs = ds' ++ rest := by simpa using heq
            simp only [List.all_cons, Bool.and_eq_true] at hall
            exact absurd hall.1 hd

theorem reMatchFeat_eq_some (cs rest : List Char) :
    reMatchFeat cs = some rest ↔
      ∃ d8 d3 : List Char,
        d8.length = 8 ∧ d8.all Char.isDigit = true
        ∧ d3.length = 3 ∧ d3.all Char.isDigit = true
        ∧ cs = 'F' :: 'E' :: 'A' :: 'T' :: '-' :: (d8 ++ '-' :: (d3 ++ rest)) := by
  simp only [reMatchFeat, Option.bind_eq_some, matchLit_eq_some, matchDigits_eq_some]
  constructor
  · rintro ⟨cs1, rfl, cs2, ⟨d8, rfl, h8l, h8d⟩, cs3, h3, d3, rfl, h3l, h3d⟩
    refine ⟨d8, d3, h8l, h8d, h3l, h3d, ?_⟩
    simp only [List.cons_append, List.nil_append] at h3 ⊢
    rw [h3]
  · rintro ⟨d8, d3, h8l, h8d, h3l, h3d, rfl⟩
    exact ⟨d8 ++ '-' :: (d3 ++ rest), by simp, '-' :: (d3 ++ rest),
      ⟨d8, rfl, h8l, h8d⟩, d3 ++ rest, rfl, d3, rfl, h3l, h3d⟩

/-- A string of the exact specified shape has length 17. -/
theorem SpecFeatFormat.length_eq {cs : List Char} (h : SpecFeatFormat cs) :
    cs.length = 17 := by
  obtain ⟨d8, d3, h8l, -, h3l, -, rfl⟩ := h
  simp [h8l, h3l]

/-- C4 (amended): `validate_feature_id` accepts exactly the strings of the
specified shape `FEAT-\d{8}-\d{3}`, possibly followed by one trailing
newline — Python's `$` also matches just before a final newline, so the
pattern is not anchored to the true end of the string. -/
theorem validate_feature_id_spec (s : String) :
    validate_feature_id s = true ↔
      SpecFeatFormat s.data
      ∨ ∃ cs : List Char, s.data = cs ++ ['\n'] ∧ SpecFeatFormat cs := by
  unfold validate_feature_id
  cases hm : reMatchFeat s.data with
  | none =>
    constructor
    · intro h; cases h
    · rintro (⟨d8, d3, h8l, h8d, h3l, h3d, heq⟩ | ⟨cs, hcs, d8, d3, h8l, h8d, h3l, h3d, heq⟩)
      · have : reMatchFeat s.data = some [] := by
          rw [reMatchFeat_eq_some]
          exact ⟨d8, d3, h8l, h8d, h3l, h3d, by rw [heq]; simp⟩
        rw [hm] at this; cases this
      · have : reMatchFeat s.data = some ['\n'] := by
          rw [reMatchFeat_eq_some]
          exact ⟨d8, d3, h8l, h8d, h3l, h3d, by rw [hcs, heq]; simp⟩
        rw [hm] at this; cases this
  | some rest =>
    obtain ⟨d8, d3, h8l, h8d, h3l, h3d, heq⟩ := (reMatchFeat_eq_some s.data rest).mp hm
    have hlen : s.data.length = 17 + rest.length := by
      rw [heq]; simp [h8l, h3l]; omega
    constructor
    · intro h
      have hrest : rest = [] ∨ rest = ['\n'] := by
        simpa [dollarAtEnd] using h
      rcases hrest with rfl | rfl
      · exact Or.inl ⟨d8, d3, h8l, h8d, h3l, h3d, by simpa using heq⟩
      · exact Or.inr ⟨'F' :: 'E' :: 'A' :: 'T' :: '-' :: (d8 ++ '-' :: d3),
          by rw [heq]; simp, d8, d3, h8l, h8d, h3l, h3d, rfl⟩
    · rintro (hfmt | ⟨cs, hcs, hfmt⟩)
      · have h17 := hfmt.length_eq
        have : rest = [] := by
          rw [List.length_eq_zero.symm]; omega
        simp [this, dollarAtEnd]
      · have h18 : s.data.length = 18 := by
          rw [hcs]; simp [hfmt.length_eq]
        have h1 : rest.length = 1 := by omega
        have hrest : rest = ['\n'] := by
          have hcs' : cs ++ ['\n'] =
              ('F' :: 'E' :: 'A' :: 'T' :: '-' :: (d8 ++ '-' :: d3)) ++ rest := by
            rw [← hcs, heq]; simp
          have hlencs : cs.length =
              ('F' :: 'E' :: 'A' :: 'T' :: '-' :: (d8 ++ '-' :: d3)).length := by
            simp only [hfmt.length_eq, List.length_cons, List.length_append, h8l, h3l]
          exact ((List.append_inj hcs' hlencs).2).symm
        simp [hrest, dollarAtEnd]

/-- C4 counterexample to the claim as stated: the 18-character string
`"FEAT-20260129-001\n"` — the valid id with a trailing newline — is
accepted by `validate_feature_id`, although it does not consist of the
17-character pattern alone. -/
theorem validate_feature_id_newline_cex :
    validate_feature_id "FEAT-20260129-001\n" = true
    ∧ ("FEAT-20260129-001\n" : String).length = 18
    ∧ validate_feature_id "INVALID" = false
    ∧ validate_feature_id "FEAT-2026-001" = false
    ∧ validate_feature_id "FEAT-20260129-1" = false
    ∧ validate_feature_id "" = false := by
  decide

theorem digitChar_isDigit (d : Nat) : (digitChar d).isDigit = true := by
  unfold digitChar
  split <;> decide

theorem toDecimalAux_congr :
    ∀ f g n, n < f → n < g → toDecimalAux f n = toDecimalAux g n := by
  intro f
  induction f with
  | zero => intro g n hf; omega
  | succ f ih =>
    intro g n hf hg
    cases g with
    | zero => omega
    | succ g =>
      simp only [toDecimalAux]
      by_cases h10 : n < 10
      · simp [h10]
      · have hdiv : n / 10 < n := Nat.div_lt_self (by omega) (by omega)
        rw [if_neg h10, if_neg h10, ih g (n / 10) (by omega) (by omega)]

/-- The fuel in `toDecimal` is invisible: the function satisfies the
intended recursion on `n / 10`. -/
theorem toDecimal_eq (n : Nat) :
    toDecimal n =
      if n < 10 then [digitChar n]
      else toDecimal (n / 10) ++ [digitChar (n % 10)] := by
  by_cases h10 : n < 10
  · rw [if_pos h10]
    unfold toDecimal
    simp [toDecimalAux, h10]
  · rw [if_neg h10]
    have hdiv : n / 10 < n := Nat.div_lt_self (by omega) (by omega)
    have h1 : toDecimal n = toDecimalAux n (n / 10) ++ [digitChar (n % 10)] := by
      unfold toDecimal
      simp only [toDecimalAux]
      rw [if_neg h10]
    rw [h1, toDecimalAux_congr n (n / 10 + 1) (n / 10) (by omega) (by omega)]
    rfl

theorem toDecimal_all_digit (n : Nat) :
    (toDecimal n).all Char.isDigit = true := by
  induction n using Nat.strong_induction_on with
  | _ n ih =>
    rw [toDecimal_eq]
    by_cases h10 : n < 10
    · simp [h10, digitChar_isDigit]
    · have hdiv : n / 10 < n := Nat.div_lt_self (by omega) (by omega)
      simp [h10, List.all_append, ih (n / 10) hdiv, digitChar_isDigit]

theorem toDecimal_length_le_one (n : Nat) (h : n < 10) :
    (toDecimal n).length = 1 := by
  rw [toDecimal_eq, if_pos h]; rfl

theorem toDecimal_length_le_two (n : Nat) (h : n < 100) :
    (toDecimal n).length ≤ 2 := by
  by_cases h10 : n < 10
  · simp [toDecimal_length_le_one n h10]
  · rw [toDecimal_eq, if_neg h10]
    simp [toDecimal_length_le_one (n / 10) (by omega)]

theorem toDecimal_length_le_three (n : Nat) (h : n < 1000) :
    (toDecimal n).length ≤ 3 := by
  by_cases h10 : n < 10
  · simp [toDecimal_length_le_one n h10]
  · rw [toDecimal_eq, if_neg h10]
    have := toDecimal_length_le_two (n / 10) (by omega)
    simp only [List.length_append, List.length_cons, List.length_nil]
    omega

theorem pad3_spec (n : Nat) (h : n ≤ 999) :
    (pad3 n).length = 3 ∧ (pad3 n).all Char.isDigit = true := by
  have hle := toDecimal_length_le_three n (by omega)
  constructor
  · simp only [pad3, List.length_append, List.length_replicate]
    omega
  · simp only [pad3, List.all_append, Bool.and_eq_true]
    refine ⟨?_, toDecimal_all_digit n⟩
    simp [List.all_eq_true, List.mem_replicate]

/-- C8 (amended): for counter values 1 through 999, the generated id is
`FEAT-YYYYMMDD-NNN` — the 8-digit date, a zero-padded 3-digit sequence
number, 17 characters in total, and of the exact shape the validator's
specification demands. -/
theorem generate_feat_id_format (today : String) (n : Nat)
    (h8 : today.data.length = 8) (hdig : today.data.all Char.isDigit = true)
    (h1 : 1 ≤ n) (h999 : n ≤ 999) :
    (generate_feat_id today n).length = 17
    ∧ SpecFeatFormat (generate_feat_id today n).data := by
  obtain ⟨hp3, hpd⟩ := pad3_spec n h999
  have hdata : (generate_feat_id today n).data
      = 'F' :: 'E' :: 'A' :: 'T' :: '-' :: (today.data ++ '-' :: pad3 n) := by
    simp [generate_feat_id, String.data_append]
  constructor
  · have : (generate_feat_id today n).length = (generate_feat_id today n).data.length := rfl
    rw [this, hdata]
    simp [h8, hp3]
  · exact ⟨today.data, pad3 n, h8, hdig, hp3, hpd, hdata⟩

/-- Witness for C8 at a concrete input: the first id generated on
2026-01-29. -/
theorem generate_feat_id_format_witness :
    (("20260129" : String).data.length = 8
      ∧ ("20260129" : String).data.all Char.isDigit = true ∧ 1 ≤ 1 ∧ 1 ≤ 999)
    ∧ ((generate_feat_id "20260129" 1).length = 17
      ∧ SpecFeatFormat (generate_feat_id "20260129" 1).data) :=
  ⟨⟨rfl, by decide, by decide, by decide⟩,
    generate_feat_id_format "20260129" 1 rfl (by decide) (by decide) (by decide)⟩

/-- C8 counterexample to the claim as stated: the 1000th feature of a day
gets an 18-character id `FEAT-20260129-1000` whose numeric suffix has four
digits; it is not of the specified 17-character shape and is rejected by
`validate_feature_id`. -/
theorem generate_feat_id_overflow_cex :
    generate_feat_id "20260129" 1000 = "FEAT-20260129-1000"
    ∧ (generate_feat_id "20260129" 1000).length = 18
    ∧ validate_feature_id (generate_feat_id "20260129" 1000) = false := by
  decide

/-- Effect of one successful `execute_phase` call: it returns the
executor's content, stores a document for its phase — status
`completed` with two system approvals under auto-approve, status
`pending_approval` with the one synthetic approval otherwise — touches no
other file, and rewrites the features table with `markInProgress`. -/
theorem execute_phase_ok (exec : WorkflowPhase → Except String String) (st : St)
    (feat proj : String) (p : WorkflowPhase) (auto : Bool) (c : String)
    (h : exec p = .ok c) :
    ∃ st', execute_phase exec st feat proj p auto = .ok (st', c)
      ∧ (∃ d, fsRead st'.fs (proj, feat, p) = some d
          ∧ d.status = (if auto then PhaseStatus.completed.value
              else PhaseStatus.pending_approval.value)
          ∧ d.content = c
          ∧ d.approvals.length = (if auto then 2 else 1)
          ∧ ∀ a ∈ d.approvals, a.user = "system")
      ∧ (∀ k : SpecKey, k ≠ (proj, feat, p) → fsRead st'.fs k = fsRead st.fs k)
      ∧ st'.features
          = st.features.map (updRow feat PhaseStatus.in_progress (some p)) := by
  cases auto with
  | false =>
    simp only [execute_phase, h, log_message, add_log, tick, write_phase_spec,
      update_feature_status]
    simp [fsRead, fsWrite, specToDict]
    intro a a1 b hne h1 h2 h3
    exact absurd h3 (hne h1 h2)
  | true =>
    simp only [execute_phase, h, log_message, add_log, tick, write_phase_spec,
      update_feature_status, update_phase_status, read_phase_spec,
      fsRead_fsWrite_same, parseSpecDict_specToDict]
    simp [fsRead, fsWrite, specToDict]
    intro a a1 b hne
    have hcond : ¬(a = proj ∧ a1 = feat ∧ b = p) := by
      rintro ⟨h1, h2, h3⟩; exact hne h1 h2 h3
    simp [hcond]

/-- Effect of a failing `execute_phase` call: the exception carries the
executor's message; the spec store and the features table are exactly as
before the call (only the log of the phase banner happened). -/
theorem execute_phase_error (exec : WorkflowPhase → Except String String) (st : St)
    (feat proj : String) (p : WorkflowPhase) (auto : Bool) (e : String)
    (h : exec p = .error e) :
    ∃ st', execute_phase exec st feat proj p auto = .error (st', e)
      ∧ st'.fs = st.fs ∧ st'.features = st.features := by
  simp [execute_phase, h, log_message, add_log, tick]

@[simp] theorem log_message_fs (st : St) (f m l : String) :
    (log_message st f m l).fs = st.fs := rfl

@[simp] theorem log_message_features (st : St) (f m l : String) :
    (log_message st f m l).features = st.features := rfl

@[simp] theorem updRow_feature_id (f : String) (s : PhaseStatus)
    (p : Option WorkflowPhase) (r : FeatureRow) :
    (updRow f s p r).feature_id = r.feature_id := by
  unfold updRow
  by_cases h : r.feature_id = f <;> cases p <;> simp [h]

@[simp] theorem update_feature_status_fs (st : St) (f : String)
    (s : PhaseStatus) (p : Option WorkflowPhase) :
    ((update_feature_status st f s p).1).fs = st.fs := rfl

theorem update_feature_status_features (st : St) (f : String)
    (s : PhaseStatus) (p : Option WorkflowPhase) :
    ((update_feature_status st f s p).1).features
      = st.features.map (updRow f s p) := rfl

/-- Rows carrying the targeted feature id end up with the written status
and current phase after the `UPDATE` with an explicit phase. -/
theorem mem_map_updRow_sets (M : List FeatureRow) (f : String)
    (s : PhaseStatus) (q : WorkflowPhase) :
    ∀ r ∈ M.map (updRow f s (some q)), r.feature_id = f →
      r.status = s.value ∧ r.current_phase = q.value := by
  intro r hr hid
  obtain ⟨r0, hr0, rfl⟩ := List.mem_map.mp hr
  by_cases h : r0.feature_id = f
  · simp [updRow, h]
  · simp only [updRow, if_neg h] at hid ⊢
    exact absurd hid h

/-- Driving any list of phases through `runPhases` with an
everywhere-successful executor: every listed phase ends up with a stored
document (status and approval count according to the approval mode, both
approvals by `"system"`, content the executor's output), no other file is
touched, and every feature row survives with its id. -/
theorem runPhases_all_ok (exec : WorkflowPhase → Except String String)
    (feat proj : String) (auto : Bool) (ps : List WorkflowPhase) :
    ∀ st : St, (∀ p ∈ ps, ∃ c, exec p = .ok c) →
      ∃ st', runPhases exec st feat proj auto ps = .ok st'
        ∧ (∀ p ∈ ps, ∃ d, fsRead st'.fs (proj, feat, p) = some d
            ∧ d.status = (if auto then PhaseStatus.completed.value
                else PhaseStatus.pending_approval.value)
            ∧ d.approvals.length = (if auto then 2 else 1)
            ∧ (∀ a ∈ d.approvals, a.user = "system")
            ∧ ∀ c, exec p = .ok c → d.content = c)
        ∧ (∀ k : SpecKey, (∀ p ∈ ps, k ≠ (proj, feat, p)) →
            fsRead st'.fs k = fsRead st.fs k)
        ∧ (∀ r0 ∈ st.features, ∃ r ∈ st'.features, r.feature_id = r0.feature_id) := by
  induction ps with
  | nil =>
    intro st hex
    exact ⟨st, rfl, by simp, fun k _ => rfl, fun r0 hr0 => ⟨r0, hr0, rfl⟩⟩
  | cons p rest ih =>
    intro st hex
    obtain ⟨c, hc⟩ := hex p (List.mem_cons_self p rest)
    obtain ⟨stm, hstep, hdoc, hframe, hfeats⟩ :=
      execute_phase_ok exec (log_message st feat (phaseBanner p)) feat proj p auto c hc
    obtain ⟨st', hrun, hdocs', hframe', hfeats'⟩ :=
      ih stm (fun q hq => hex q (List.mem_cons_of_mem p hq))
    refine ⟨st', ?_, ?_, ?_, ?_⟩
    · simp only [runPhases, hstep]
      exact hrun
    · intro q hq
      rcases List.mem_cons.mp hq with rfl | hq'
      · by_cases hmem : q ∈ rest
        · exact hdocs' q hmem
        · obtain ⟨d, hd, hprops⟩ := hdoc
          refine ⟨d, ?_, ?_, ?_, ?_, ?_⟩
          · rw [hframe' (proj, feat, q) ?_]
            · exact hd
            · intro q' hq' heq
              apply hmem
              have hqq : q = q' := by
                have h2 := congrArg (fun t : SpecKey => t.2.2) heq
                simpa using h2
              rw [hqq]; exact hq'
          · exact hprops.1
          · exact hprops.2.2.1
          · exact hprops.2.2.2
          · intro c' hc'
            rw [hc] at hc'
            cases hc'
            exact hprops.2.1
      · exact hdocs' q hq'
    · intro k hk
      rw [hframe' k (fun q hq => hk q (List.mem_cons_of_mem p hq))]
      rw [hframe k (hk p (List.mem_cons_self p rest))]
      rfl
    · intro r0 hr0
      have hm : updRow feat PhaseStatus.in_progress (some p) r0 ∈ stm.features := by
        rw [hfeats]
        simpa using List.mem_map_of_mem (updRow feat PhaseStatus.in_progress (some p)) hr0
      obtain ⟨r, hr, hid⟩ := hfeats' _ hm
      exact ⟨r, hr, by rw [hid, updRow_feature_id]⟩

/-- Every phase is in the canonical iteration order. -/
theorem mem_phasesInOrder (p : WorkflowPhase) : p ∈ phasesInOrder := by
  cases p <;> simp [phasesInOrder]

/-- C1 (amended): an auto-approve run with an everywhere-successful
executor ends successfully with the feature `completed` at phase `review`,
and stores one spec document per phase, each with status `completed` and
exactly **two** approval records — the synthetic `"Auto-generated"` record
written with the document plus the `"Auto-approved"` record appended by the
auto-approval — both authored by `"system"`. -/
theorem run_workflow_auto_approve_spec (exec : WorkflowPhase → Except String String)
    (st : St) (feat proj desc : String) (pid : Nat)
    (hex : ∀ p : WorkflowPhase, ∃ c, exec p = .ok c)
    (hfeat : ∃ r ∈ st.features, r.feature_id = feat) :
    (run_workflow exec st feat proj desc pid true).2
        = RunResult.success feat PhaseStatus.completed
    ∧ (∀ p : WorkflowPhase, ∃ d,
        fsRead (run_workflow exec st feat proj desc pid true).1.fs
          (proj, feat, p) = some d
        ∧ d.status = PhaseStatus.completed.value
        ∧ d.approvals.length = 2
        ∧ ∀ a ∈ d.approvals, a.user = "system")
    ∧ (∃ r ∈ (run_workflow exec st feat proj desc pid true).1.features,
        r.feature_id = feat)
    ∧ (∀ r ∈ (run_workflow exec st feat proj desc pid true).1.features,
        r.feature_id = feat →
          r.status = PhaseStatus.completed.value
          ∧ r.current_phase = WorkflowPhase.review.value) := by
  obtain ⟨stR, hrun, hdocs, hframe, hfeats⟩ :=
    runPhases_all_ok exec feat proj true phasesInOrder
      ((update_feature_status (log_message st feat
          ("Starting workflow for " ++ feat ++ ": " ++ desc)) feat
          PhaseStatus.in_progress (some WorkflowPhase.requirements)).1)
      (fun p _ => hex p)
  refine ⟨?_, ?_, ?_, ?_⟩
  · simp [run_workflow, hrun]
  · intro p
    obtain ⟨d, hd, hstat, hlen, husers, -⟩ := hdocs p (mem_phasesInOrder p)
    refine ⟨d, ?_, hstat, hlen, husers⟩
    simp only [run_workflow, hrun]
    exact hd
  · obtain ⟨r0, hr0, hid0⟩ := hfeat
    have hm : updRow feat PhaseStatus.in_progress (some WorkflowPhase.requirements) r0
        ∈ ((update_feature_status (log_message st feat
            ("Starting workflow for " ++ feat ++ ": " ++ desc)) feat
            PhaseStatus.in_progress (some WorkflowPhase.requirements)).1).features := by
      rw [update_feature_status_features, log_message_features]
      exact List.mem_map_of_mem _ hr0
    obtain ⟨r1, hr1, hid1⟩ := hfeats _ hm
    refine ⟨updRow feat PhaseStatus.completed (some WorkflowPhase.review) r1, ?_, ?_⟩
    · simp only [run_workflow, hrun]
      exact List.mem_map_of_mem _ hr1
    · rw [updRow_feature_id, hid1, updRow_feature_id]
      exact hid0
  · intro r hr hid
    simp only [run_workflow, hrun] at hr
    exact mem_map_updRow_sets stR.features feat PhaseStatus.completed
      WorkflowPhase.review r hr hid

/-- Witness for C1 at a concrete input: the demo run with a constant
executor. -/
theorem run_workflow_auto_approve_spec_witness :
    ((∀ p : WorkflowPhase, ∃ c, demoExec p = Except.ok c)
      ∧ ∃ r ∈ demoSt.features, r.feature_id = "FEAT-20260129-001")
    ∧ (run_workflow demoExec demoSt "FEAT-20260129-001" "demo" "add login" 1
        true).2 = RunResult.success "FEAT-20260129-001" PhaseStatus.completed :=
  ⟨⟨fun _ => ⟨"spec content", rfl⟩, ⟨demoRow, by simp [demoSt, emptySt], rfl⟩⟩,
    (run_workflow_auto_approve_spec demoExec demoSt "FEAT-20260129-001" "demo"
      "add login" 1 (fun _ => ⟨"spec content", rfl⟩)
      ⟨demoRow, by simp [demoSt, emptySt], rfl⟩).1⟩

/-- C1 counterexample to the claim as stated: on the demo run the
requirements document carries **two** approval records, not exactly one. -/
theorem run_workflow_auto_two_approvals_cex :
    (fsRead (run_workflow demoExec demoSt "FEAT-20260129-001" "demo"
        "add login" 1 true).1.fs
      ("demo", "FEAT-20260129-001", WorkflowPhase.requirements)).map
        (fun d => d.approvals.length) = some 2 := by
  decide

/-- C2 (amended): a run with `auto_approve = False` does **not** stop after
the Requirements phase: it executes all six phases in the same run, storing
one spec document per phase, each with status `pending_approval` and a
single synthetic `"system"` approval record, and ends with the feature
`pending_approval` at phase `review`. -/
theorem run_workflow_manual_spec (exec : WorkflowPhase → Except String String)
    (st : St) (feat proj desc : String) (pid : Nat)
    (hex : ∀ p : WorkflowPhase, ∃ c, exec p = .ok c) :
    (run_workflow exec st feat proj desc pid false).2
        = RunResult.success feat PhaseStatus.pending_approval
    ∧ (∀ p : WorkflowPhase, ∃ d,
        fsRead (run_workflow exec st feat proj desc pid false).1.fs
          (proj, feat, p) = some d
        ∧ d.status = PhaseStatus.pending_approval.value
        ∧ d.approvals.length = 1
        ∧ ∀ a ∈ d.approvals, a.user = "system")
    ∧ (∀ r ∈ (run_workflow exec st feat proj desc pid false).1.features,
        r.feature_id = feat →
          r.status = PhaseStatus.pending_approval.value
          ∧ r.current_phase = WorkflowPhase.review.value) := by
  obtain ⟨stR, hrun, hdocs, hframe, hfeats⟩ :=
    runPhases_all_ok exec feat proj false phasesInOrder
      ((update_feature_status (log_message st feat
          ("Starting workflow for " ++ feat ++ ": " ++ desc)) feat
          PhaseStatus.in_progress (some WorkflowPhase.requirements)).1)
      (fun p _ => hex p)
  refine ⟨?_, ?_, ?_⟩
  · simp [run_workflow, hrun]
  · intro p
    obtain ⟨d, hd, hstat, hlen, husers, -⟩ := hdocs p (mem_phasesInOrder p)
    refine ⟨d, ?_, hstat, hlen, husers⟩
    simp only [run_workflow, hrun]
    exact hd
  · intro r hr hid
    simp only [run_workflow, hrun] at hr
    exact mem_map_updRow_sets stR.features feat PhaseStatus.pending_approval
      WorkflowPhase.review r hr hid

/-- Witness for C2 at a concrete input: after the demo manual run the
requirements document is pending approval. -/
theorem run_workflow_manual_spec_witness :
    (∀ p : WorkflowPhase, ∃ c, demoExec p = Except.ok c)
    ∧ (run_workflow demoExec demoSt "FEAT-20260129-001" "demo" "add login" 1
        false).2 = RunResult.success "FEAT-20260129-001" PhaseStatus.pending_approval :=
  ⟨fun _ => ⟨"spec content", rfl⟩,
    (run_workflow_manual_spec demoExec demoSt "FEAT-20260129-001" "demo"
      "add login" 1 (fun _ => ⟨"spec content", rfl⟩)).1⟩

/-- C2 counterexample to the claim as stated: after the demo run with
`auto_approve = False`, a Design-phase document exists — the engine did
proceed past Requirements within that run, so more than one spec document
exists. -/
theorem run_workflow_manual_proceeds_cex :
    (fsRead (run_workflow demoExec demoSt "FEAT-20260129-001" "demo"
        "add login" 1 false).1.fs
      ("demo", "FEAT-20260129-001", WorkflowPhase.design)).isSome = true
    ∧ (fsRead (run_workflow demoExec demoSt "FEAT-20260129-001" "demo"
        "add login" 1 false).1.fs
      ("demo", "FEAT-20260129-001", WorkflowPhase.review)).isSome = true := by
  decide

@[simp] theorem log_message_logs (st : St) (f m l : String) :
    (log_message st f m l).logs
      = st.logs ++ [{ feature_id := f, timestamp := st.clock,
                      message := m, level := l }] := rfl

@[simp] theorem update_feature_status_logs (st : St) (f : String)
    (s : PhaseStatus) (p : Option WorkflowPhase) :
    ((update_feature_status st f s p).1).logs = st.logs := rfl

/-- The `UPDATE` with the phase omitted sets the status of the matching
rows and leaves each row's current phase equal to that of the underlying
row. -/
theorem mem_map_updRow_none_sets (M : List FeatureRow) (f : String)
    (s : PhaseStatus) :
    ∀ r ∈ M.map (updRow f s none), r.feature_id = f →
      r.status = s.value
      ∧ ∃ r0 ∈ M, r0.feature_id = f ∧ r.current_phase = r0.current_phase := by
  intro r hr hid
  obtain ⟨r0, hr0, rfl⟩ := List.mem_map.mp hr
  by_cases h : r0.feature_id = f
  · exact ⟨by simp [updRow, h], r0, hr0, h, by simp [updRow, h]⟩
  · simp only [updRow, if_neg h] at hid ⊢
    exact absurd hid h

/-- Driving phases through `runPhases` when the executor succeeds on every
phase of `done` and then crashes on `pfail`: the run propagates the
exception from a state in which every `done` phase has its stored document
(with the executor's content), no other file was touched, feature ids are
preserved, and — when at least one phase completed — the rows carrying
`feat` sit at status `in_progress`, current phase the last completed
phase. -/
theorem runPhases_first_error (exec : WorkflowPhase → Except String String)
    (feat proj : String) (auto : Bool) (pfail : WorkflowPhase)
    (rest : List WorkflowPhase) (e : String) (herr : exec pfail = .error e)
    (done : List WorkflowPhase) :
    ∀ st : St, (∀ p ∈ done, ∃ c, exec p = .ok c) →
      ∃ stE, runPhases exec st feat proj auto (done ++ pfail :: rest)
          = .error (stE, e)
        ∧ (∀ p ∈ done, ∃ d, fsRead stE.fs (proj, feat, p) = some d
            ∧ d.status = (if auto then PhaseStatus.completed.value
                else PhaseStatus.pending_approval.value)
            ∧ ∀ c, exec p = .ok c → d.content = c)
        ∧ (∀ k : SpecKey, (∀ p ∈ done, k ≠ (proj, feat, p)) →
            fsRead stE.fs k = fsRead st.fs k)
        ∧ (∀ r0 ∈ st.features, ∃ r ∈ stE.features, r.feature_id = r0.feature_id)
        ∧ (done = [] → stE.features = st.features)
        ∧ (∀ plast, done.getLast? = some plast →
            ∀ r ∈ stE.features, r.feature_id = feat →
              r.status = PhaseStatus.in_progress.value
              ∧ r.current_phase = plast.value) := by
  induction done with
  | nil =>
    intro st hex
    obtain ⟨stE, hstep, hfs, hfeats⟩ :=
      execute_phase_error exec (log_message st feat (phaseBanner pfail))
        feat proj pfail auto e herr
    refine ⟨stE, ?_, by simp, ?_, ?_, fun _ => ?_, ?_⟩
    · simp only [List.nil_append, runPhases, hstep]
    · intro k _
      rw [hfs]; rfl
    · intro r0 hr0
      rw [hfeats]; exact ⟨r0, hr0, rfl⟩
    · rw [hfeats]; rfl
    · intro plast hplast
      cases hplast
  | cons p done' ih =>
    intro st hex
    obtain ⟨c, hc⟩ := hex p (List.mem_cons_self p done')
    obtain ⟨stm, hstep, hdoc, hframe, hfeats⟩ :=
      execute_phase_ok exec (log_message st feat (phaseBanner p)) feat proj p
        auto c hc
    obtain ⟨stE, hrun, hdocs', hframe', hfeats', hnil', hlast'⟩ :=
      ih stm (fun q hq => hex q (List.mem_cons_of_mem p hq))
    refine ⟨stE, ?_, ?_, ?_, ?_, ?_, ?_⟩
    · simp only [List.cons_append, runPhases, hstep]
      exact hrun
    · intro q hq
      rcases List.mem_cons.mp hq with rfl | hq'
      · by_cases hmem : q ∈ done'
        · exact hdocs' q hmem
        · obtain ⟨d, hd, hstat, hcont, -, -⟩ := hdoc
          refine ⟨d, ?_, hstat, ?_⟩
          · rw [hframe' (proj, feat, q) ?_]
            · exact hd
            · intro q' hq' heq
              apply hmem
              have hqq : q = q' := by
                have h2 := congrArg (fun t : SpecKey => t.2.2) heq
                simpa using h2
              rw [hqq]; exact hq'
          · intro c' hc'
            rw [hc] at hc'
            cases hc'
            exact hcont
      · exact hdocs' q hq'
    · intro k hk
      rw [hframe' k (fun q hq => hk q (List.mem_cons_of_mem p hq))]
      rw [hframe k (hk p (List.mem_cons_self p done'))]
      rfl
    · intro r0 hr0
      have hm : updRow feat PhaseStatus.in_progress (some p) r0 ∈ stm.features := by
        rw [hfeats]
        simpa using List.mem_map_of_mem (updRow feat PhaseStatus.in_progress (some p)) hr0
      obtain ⟨r, hr, hid⟩ := hfeats' _ hm
      exact ⟨r, hr, by rw [hid, updRow_feature_id]⟩
    · intro hcontra
      cases hcontra
    · intro plast hplast
      cases done' with
      | nil =>
        have hp : p = plast := by
          simpa using hplast
        subst hp
        have hE : stE.features = stm.features := hnil' rfl
        intro r hr hid
        rw [hE, hfeats] at hr
        exact mem_map_updRow_sets
          ((log_message st feat (phaseBanner p)).features) feat
          PhaseStatus.in_progress p r hr hid
      | cons q done'' =>
        have hplast' : (q :: done'').getLast? = some plast := by
          simpa using hplast
        exact hlast' plast hplast'

/-- C5: when the executor crashes on phase `pfail` (after succeeding on
the phases `done` before it), the run aborts returning the failure result,
the error message is logged at `error` level, the feature's rows flip to
status `rejected` while their current phase stays what it was at the error
(the last completed phase, or `requirements` when none completed), and the
documents already written for the completed phases are still stored with
the executor's content — no rollback. -/
theorem run_workflow_error_spec (exec : WorkflowPhase → Except String String)
    (st : St) (feat proj desc : String) (pid : Nat) (auto : Bool)
    (done : List WorkflowPhase) (pfail : WorkflowPhase)
    (rest : List WorkflowPhase) (e : String)
    (hsplit : phasesInOrder = done ++ pfail :: rest)
    (herr : exec pfail = .error e)
    (hok : ∀ p ∈ done, ∃ c, exec p = .ok c)
    (hfeat : ∃ r ∈ st.features, r.feature_id = feat) :
    (run_workflow exec st feat proj desc pid auto).2
        = RunResult.failure feat ("Workflow error: " ++ e)
    ∧ (∃ t : Time,
        ({ feature_id := feat, timestamp := t,
             message := "Workflow error: " ++ e, level := "error" } : LogRow)
          ∈ (run_workflow exec st feat proj desc pid auto).1.logs)
    ∧ (∃ r ∈ (run_workflow exec st feat proj desc pid auto).1.features,
        r.feature_id = feat)
    ∧ (∀ r ∈ (run_workflow exec st feat proj desc pid auto).1.features,
        r.feature_id = feat →
          r.status = PhaseStatus.rejected.value
          ∧ (done = [] → r.current_phase = WorkflowPhase.requirements.value)
          ∧ (∀ plast, done.getLast? = some plast →
              r.current_phase = plast.value))
    ∧ (∀ p ∈ done, ∀ c, exec p = .ok c →
        ∃ d, fsRead (run_workflow exec st feat proj desc pid auto).1.fs
            (proj, feat, p) = some d
          ∧ d.content = c
          ∧ d.status = (if auto then PhaseStatus.completed.value
              else PhaseStatus.pending_approval.value)) := by
  obtain ⟨stE, hrun, hdocs, hframe, hfeats, hnil, hlast⟩ :=
    runPhases_first_error exec feat proj auto pfail rest e herr done
      ((update_feature_status (log_message st feat
          ("Starting workflow for " ++ feat ++ ": " ++ desc)) feat
          PhaseStatus.in_progress (some WorkflowPhase.requirements)).1) hok
  rw [← hsplit] at hrun
  refine ⟨?_, ?_, ?_, ?_, ?_⟩
  · simp [run_workflow, hrun, runError]
  · refine ⟨stE.clock, ?_⟩
    simp only [run_workflow, hrun, runError, update_feature_status_logs,
      log_message_logs]
    simp
  · obtain ⟨r0, hr0, hid0⟩ := hfeat
    have hm : updRow feat PhaseStatus.in_progress (some WorkflowPhase.requirements) r0
        ∈ ((update_feature_status (log_message st feat
            ("Starting workflow for " ++ feat ++ ": " ++ desc)) feat
            PhaseStatus.in_progress (some WorkflowPhase.requirements)).1).features := by
      rw [update_feature_status_features, log_message_features]
      exact List.mem_map_of_mem _ hr0
    obtain ⟨r1, hr1, hid1⟩ := hfeats _ hm
    refine ⟨updRow feat PhaseStatus.rejected none r1, ?_, ?_⟩
    · simp only [run_workflow, hrun, runError, update_feature_status_features,
        log_message_features]
      exact List.mem_map_of_mem _ hr1
    · rw [updRow_feature_id, hid1, updRow_feature_id]
      exact hid0
  · intro r hr hid
    simp only [run_workflow, hrun, runError, update_feature_status_features,
      log_message_features] at hr
    obtain ⟨hstat, r0, hr0, hid0, hphase⟩ :=
      mem_map_updRow_none_sets stE.features feat PhaseStatus.rejected r hr hid
    refine ⟨hstat, ?_, ?_⟩
    · intro hdone
      rw [hphase]
      have hE := hnil hdone
      rw [hE, update_feature_status_features, log_message_features] at hr0
      exact (mem_map_updRow_sets _ _ _ _ r0 hr0 hid0).2
    · intro plast hplast
      rw [hphase]
      exact (hlast plast hplast r0 hr0 hid0).2
  · intro p hp c hc
    obtain ⟨d, hd, hstat, hcont⟩ := hdocs p hp
    refine ⟨d, ?_, hcont c hc, hstat⟩
    simp only [run_workflow, hrun, runError, update_feature_status_fs,
      log_message_fs]
    exact hd

/-- Witness for C5 at a concrete input: an executor crashing while
generating the Design phase aborts the demo run with the logged message. -/
theorem run_workflow_error_spec_witness :
    (phasesInOrder
        = [WorkflowPhase.requirements] ++ WorkflowPhase.design
          :: [WorkflowPhase.tasks, WorkflowPhase.implementation,
              WorkflowPhase.verification, WorkflowPhase.review]
      ∧ failingExec WorkflowPhase.design = Except.error "rate limited"
      ∧ (∀ p ∈ [WorkflowPhase.requirements], ∃ c, failingExec p = Except.ok c)
      ∧ ∃ r ∈ demoSt.features, r.feature_id = "FEAT-20260129-001")
    ∧ (run_workflow failingExec demoSt "FEAT-20260129-001" "demo" "add login" 1
        true).2
      = RunResult.failure "FEAT-20260129-001" ("Workflow error: " ++ "rate limited") :=
  ⟨⟨rfl, rfl, by intro p hp; simp at hp; subst hp; exact ⟨"spec content", rfl⟩,
      ⟨demoRow, by simp [demoSt, emptySt], rfl⟩⟩,
    (run_workflow_error_spec failingExec demoSt "FEAT-20260129-001" "demo"
      "add login" 1 true [WorkflowPhase.requirements] WorkflowPhase.design
      [WorkflowPhase.tasks, WorkflowPhase.implementation,
        WorkflowPhase.verification, WorkflowPhase.review] "rate limited" rfl rfl
      (by intro p hp; simp at hp; subst hp; exact ⟨"spec content", rfl⟩)
      ⟨demoRow, by simp [demoSt, emptySt], rfl⟩).1⟩

end ClaudeForge
